import Mathlib

/-!
The `utils` package of plugin-manager: keyword resolver, interface lookup, bridge info
extractor and local topology query.

A shallow embedding of `src/utils/utils.go`.

* Go strings are Lean `String`s; the `strings` helpers used by the code are defined on the
  character list of a string.
* `interface{}` configuration values are the tree type `Config`.  A `map[string]interface{}` is
  an association list; the order of the list is the order in which `range` visits the keys, so
  quantifying over lists quantifies over iteration orders.  The keys of a Go map are pairwise
  distinct, hence the statement `props[aKey] = x` executed while `aKey` is being visited rewrites
  exactly the entry being visited.
* The netlink library is an oracle `NetStack`.
* A Go function returning `(string, error)` returns a pair; a run-time panic is an explicit
  outcome.
-/

namespace Utils

/-! ## Strings -/

/-- Go `strings.HasPrefix`. -/
def HasPrefix (s pre : String) : Bool :=
  pre.data.isPrefixOf s.data

/-- Go `unicode.IsSpace`: the Latin-1 spaces and the code points of category Z. -/
def isSpace (c : Char) : Bool :=
  let n := c.toNat
  (9 ≤ n && n ≤ 13) || n == 32 || n == 0x85 || n == 0xA0 || n == 0x1680 ||
  (0x2000 ≤ n && n ≤ 0x200A) || n == 0x2028 || n == 0x2029 || n == 0x202F ||
  n == 0x205F || n == 0x3000

/-- Go `strings.TrimSpace`: leading and trailing white space removed. -/
def TrimSpace (s : String) : String :=
  ⟨((s.data.dropWhile isSpace).reverse.dropWhile isSpace).reverse⟩

/-- The text before and the text after the first occurrence of `sep`, if there is one. -/
def cutFirst (sep : Char) : List Char → Option (List Char × List Char)
  | [] => none
  | c :: cs =>
    if c = sep then some ([], cs)
    else
      match cutFirst sep cs with
      | none => none
      | some (a, b) => some (c :: a, b)

/-- Go `strings.SplitN(s, sep, 2)` for a one-character separator. -/
def SplitN2 (s : String) (sep : Char) : List String :=
  match cutFirst sep s.data with
  | none => [s]
  | some (a, b) => [⟨a⟩, ⟨b⟩]

/-- All the pieces of a character list between occurrences of `sep`. -/
def pieces (sep : Char) : List Char → List (List Char)
  | [] => [[]]
  | c :: cs =>
    if c = sep then [] :: pieces sep cs
    else
      match pieces sep cs with
      | [] => [[c]]
      | p :: ps => (c :: p) :: ps

/-- Go `strings.Split(s, sep)` for a one-character separator. -/
def Split (s : String) (sep : Char) : List String :=
  (pieces sep s.data).map String.mk

/-! ## Data model -/

/-- A dynamically typed configuration value (`interface{}` holding decoded JSON). -/
inductive Config where
  | null
  | bool (b : Bool)
  | num (n : Int)
  | str (s : String)
  | seq (xs : List Config)
  | map (kvs : List (String × Config))

/-- Modelled from the spec: the `metadata.Host` record (declared in go-rancher-metadata, not in
this repository), with the fields the code reads. -/
structure Host where
  UUID : String
  EnvironmentUUID : String
  Labels : List (String × String)

/-- Modelled from the spec: the `metadata.Network` record, with the fields the code reads. -/
structure Network where
  UUID : String
  EnvironmentUUID : String
  Metadata : List (String × Config)

/-- Modelled from the spec: the `metadata.Container` record, with the fields the code reads. -/
structure Container where
  UUID : String
  HostUUID : String
  NetworkUUID : String
deriving DecidableEq

/-- Modelled from the spec: the `metadata.Service` record, with the fields the code reads. -/
structure Service where
  Kind : String
  Name : String
  PrimaryServiceName : String
  Containers : List Container
deriving DecidableEq

/-- Modelled from the spec: the local network stack behind `netlink.LinkByName` and
`netlink.AddrList(l, FAMILY_V4)`.  A link is a number; an address is given by the text
`IPNet.String()` renders for it. -/
structure NetStack where
  LinkByName : String → Except String Nat
  AddrList : Nat → Except String (List String)

/-- What a call of a Go function of result type `(string, error)` does. -/
inductive Outcome where
  | ret (ipstr : String) (err : Option String)
  | panicked

/-- Go `m[k]` on a `map[string]string`: the zero value when the key is absent. -/
def labelAt (labels : List (String × String)) (k : String) : String :=
  (labels.lookup k).getD ""

/-- Go `x.(map[string]interface{})` with the `ok` result dropped: the nil map on failure. -/
def asMap : Option Config → List (String × Config)
  | some (.map kvs) => kvs
  | _ => []

/-- Go `x.(string)` with the `ok` result dropped: the empty string on failure. -/
def asString : Option Config → String
  | some (.str s) => s
  | _ => ""

/-- Go `_, ok := x.(map[string]interface{})`. -/
def isMap : Option Config → Bool
  | some (.map _) => true
  | _ => false

/-! ## The code -/

def hostLabelKeyword : String := "__host_label__"

def hostInterfaceKeyword : String := "__host_interface__"

/-- `getIPFromIface` (utils.go 65-86). -/
def getIPFromIface (ns : NetStack) (iface : String) (index : Int) : Outcome :=
  let ipstr := ""
  match ns.LinkByName iface with
  | .error err => .ret ipstr (some ("Failed to get bridge link: " ++ err))
  | .ok l =>
    match ns.AddrList l with
    | .error err => .ret ipstr (some ("Failed to get bridge address: " ++ err))
    | .ok addrs =>
      -- `addrs[index]` with a negative index is a run-time panic
      let indexed : Option String :=
        if (addrs.length : Int) > index then
          if 0 ≤ index then some ((Split (addrs.getD index.toNat "") '/').headD "")
          else none
        else some ipstr
      match indexed with
      | none => .panicked
      | some ipstr =>
        if ipstr = "" then .ret ipstr (some ("Get no ip address from " ++ iface))
        else .ret ipstr none

/-- The body of the mapping loop of `UpdateCNIConfigByKeywords` for a string value `v`
(utils.go 30-53): the string stored under the key when the body is left, and whether it was
left by `break`.  The call `getIPFromIface(iface, 0)` cannot panic (`getIPFromIface_zero`). -/
def substString (ns : NetStack) (host : Host) (v : String) : String × Bool :=
  let cur : String :=
    if HasPrefix v hostLabelKeyword then
      let splits := SplitN2 v ':'
      if splits.length > 1 then
        let label := TrimSpace (splits.getD 1 "")
        let labelValue := labelAt host.Labels label
        if labelValue ≠ "" then labelValue else ""
      else ""
    else v
  if HasPrefix v hostInterfaceKeyword then
    let splits := SplitN2 v ':'
    if splits.length > 1 then
      let iface := TrimSpace (splits.getD 1 "")
      match getIPFromIface ns iface 0 with
      | .ret ipstr none => (ipstr, false)
      | .ret _ (some _) => ("", true)
      | .panicked => ("", true)
    else ("", false)
  else (cur, false)

mutual
/-- `UpdateCNIConfigByKeywords` (utils.go 19-63). -/
def UpdateCNIConfigByKeywords (ns : NetStack) (host : Host) : Config → Config
  | .seq props => .seq (updateSeq ns host props)
  | .map props => .map (updateMap ns host props)
  | config => config
/-- The loop over a sequence (utils.go 22-25). -/
def updateSeq (ns : NetStack) (host : Host) : List Config → List Config
  | [] => []
  | v :: rest => UpdateCNIConfigByKeywords ns host v :: updateSeq ns host rest
/-- The loop over a mapping (utils.go 28-58); `break` leaves the entries not yet visited as
they are. -/
def updateMap (ns : NetStack) (host : Host) : List (String × Config) → List (String × Config)
  | [] => []
  | (aKey, .str v) :: rest =>
    if (substString ns host v).2 then (aKey, .str (substString ns host v).1) :: rest
    else (aKey, .str (substString ns host v).1) :: updateMap ns host rest
  | (aKey, aValue) :: rest =>
    (aKey, UpdateCNIConfigByKeywords ns host aValue) :: updateMap ns host rest
end

/-- The loop of `GetBridgeInfo` (utils.go 92-103) on the fragments still to visit, from the
current values of the named results `bridge` and `bridgeSubnet`. -/
def scanFragments (ns : NetStack) (host : Host) :
    List (String × Config) → String × String → String × String
  | [], res => res
  | (_, file) :: rest, (bridge, _) =>
    let file := UpdateCNIConfigByKeywords ns host file
    let props := asMap (some file)
    let cniType := asString (props.lookup "type")
    let checkBridge := asString (props.lookup "bridge")
    let bridgeSubnet := asString (props.lookup "bridgeSubnet")
    if cniType = "rancher-bridge" ∧ checkBridge ≠ "" then (checkBridge, bridgeSubnet)
    else scanFragments ns host rest (bridge, bridgeSubnet)

/-- `GetBridgeInfo` (utils.go 90-105). -/
def GetBridgeInfo (ns : NetStack) (network : Network) (host : Host) : String × String :=
  let conf := asMap (network.Metadata.lookup "cniConfig")
  scanFragments ns host conf ("", "")

/-- Go `m[k] = v` on a map held as a function from keys. -/
def setRouter (m : String → Option Container) (k : String) (v : Container) :
    String → Option Container :=
  fun n => if n = k then some v else m n

/-- The inner loop of `GetLocalNetworksAndRouters` (utils.go 120-124). -/
def addContainers (host : Host) :
    List Container → (String → Option Container) → String → Option Container
  | [], localRouters => localRouters
  | aContainer :: rest, localRouters =>
    if aContainer.HostUUID = host.UUID then
      addContainers host rest (setRouter localRouters aContainer.NetworkUUID aContainer)
    else addContainers host rest localRouters

/-- The loop over the services of `GetLocalNetworksAndRouters` (utils.go 111-125). -/
def addServices (host : Host) :
    List Service → (String → Option Container) → String → Option Container
  | [], localRouters => localRouters
  | service :: rest, localRouters =>
    if ¬ (service.Kind = "networkDriverService" ∧ service.Name = service.PrimaryServiceName) then
      addServices host rest localRouters
    else addServices host rest (addContainers host service.Containers localRouters)

/-- The loop over the networks of `GetLocalNetworksAndRouters` (utils.go 128-137), from the
networks appended so far. -/
def addNetworks (host : Host) : List Network → List Network → List Network
  | [], localNetworks => localNetworks
  | aNetwork :: rest, localNetworks =>
    if aNetwork.EnvironmentUUID ≠ host.EnvironmentUUID then addNetworks host rest localNetworks
    else if ¬ isMap (aNetwork.Metadata.lookup "cniConfig") then
      addNetworks host rest localNetworks
    else addNetworks host rest (localNetworks ++ [aNetwork])

/-- `GetLocalNetworksAndRouters` (utils.go 109-140).  The router map is a function from
network identifiers: `none` where the map has no entry. -/
def GetLocalNetworksAndRouters (networks : List Network) (host : Host)
    (services : List Service) : List Network × (String → Option Container) :=
  let localRouters := addServices host services (fun _ => none)
  let localNetworks := addNetworks host networks []
  (localNetworks, localRouters)

/-- Modelled from the spec: the metadata source behind `metadata.Client`, as the results of
its three retrievals. -/
structure Client where
  GetNetworks : Except String (List Network)
  GetSelfHost : Except String Host
  GetServices : Except String (List Service)

/-- What `GetLocalNetworksAndRoutersFromMetadata` returns: the network slice and the router
map, each `none` when nil, and the error, `none` when nil. -/
structure MetadataResult where
  networks : Option (List Network)
  routers : Option (String → Option Container)
  err : Option String

/-- `GetLocalNetworksAndRoutersFromMetadata` (utils.go 143-162). -/
def GetLocalNetworksAndRoutersFromMetadata (mc : Client) : MetadataResult :=
  match mc.GetNetworks with
  | .error err => ⟨none, none, some err⟩
  | .ok networks =>
    match mc.GetSelfHost with
    | .error err => ⟨none, none, some err⟩
    | .ok host =>
      match mc.GetServices with
      | .error err => ⟨none, none, some err⟩
      | .ok services =>
        let res := GetLocalNetworksAndRouters networks host services
        ⟨some res.1, some res.2, none⟩

/-! ## Notions used to state the properties -/

/-- Whether the loop over these entries of a mapping is left by `break`, that is, whether one
of the string values is an interface placeholder whose lookup fails. -/
def mapBreaks (ns : NetStack) (host : Host) : List (String × Config) → Bool
  | [] => false
  | (_, .str v) :: rest => (substString ns host v).2 || mapBreaks ns host rest
  | _ :: rest => mapBreaks ns host rest

/-- A network whose only fragment has another type and declares a subnet. -/
def netOther : Network :=
  ⟨"n1", "env1",
   [("cniConfig", .map [("10-other.conf",
      .map [("type", .str "other"), ("bridgeSubnet", .str "10.1.0.0/16")])])]⟩

/-- The bridge fragment of the spec's example. -/
def fragBridge : Config :=
  .map [("type", .str "rancher-bridge"), ("bridge", .str "docker0"),
        ("bridgeSubnet", .str "10.42.0.0/16")]

/-- A fragment of another type that declares a subnet. -/
def fragOther : Config :=
  .map [("type", .str "other"), ("bridgeSubnet", .str "10.1.0.0/16")]

/-- A network with the two fragments, the bridge fragment iterated last. -/
def netTwo : Network :=
  ⟨"n2", "env1", [("cniConfig", .map [("10-other.conf", fragOther), ("20-br.conf", fragBridge)])]⟩

/-- The sequence `Q` of the claim on the router map: the containers met by walking the services
in list order and, inside each service of kind `networkDriverService` whose name is its
primary service name, its containers in list order, keeping those on the host. -/
def routerCandidates (host : Host) (services : List Service) : List Container :=
  services.flatMap fun s =>
    if s.Kind = "networkDriverService" ∧ s.Name = s.PrimaryServiceName then
      s.Containers.filter fun c => c.HostUUID = host.UUID
    else []

/-- A network of another environment than `hostFoo`. -/
def netElsewhere : Network :=
  ⟨"n9", "env2", [("cniConfig", .map [])]⟩

/-- A container on `hostFoo` attached to the network `n9`. -/
def routerN9 : Container :=
  ⟨"c1", "h1", "n9"⟩

/-- The canonical network driver service with the container `routerN9`. -/
def svcIpsec : Service :=
  ⟨"networkDriverService", "ipsec", "ipsec", [routerN9]⟩

mutual
/-- No loop over a mapping inside the configuration value is left by `break`: every
interface placeholder with a colon that is a value of a mapping resolves. -/
def noBreak (ns : NetStack) (host : Host) : Config → Bool
  | .seq xs => noBreakSeq ns host xs
  | .map kvs => noBreakMap ns host kvs
  | _ => true
/-- The same for the elements of a sequence. -/
def noBreakSeq (ns : NetStack) (host : Host) : List Config → Bool
  | [] => true
  | c :: rest => noBreak ns host c && noBreakSeq ns host rest
/-- The same for the entries of a mapping. -/
def noBreakMap (ns : NetStack) (host : Host) : List (String × Config) → Bool
  | [] => true
  | (_, .str v) :: rest => !(substString ns host v).2 && noBreakMap ns host rest
  | (_, c) :: rest => noBreak ns host c && noBreakMap ns host rest
end

/-- A host whose label `foo` holds a placeholder for the label `bar`. -/
def hostChained : Host :=
  ⟨"h1", "env1", [("foo", "__host_label__:bar"), ("bar", "10.0.0.5")]⟩

/-- A fragment with an interface placeholder, a label placeholder and a nested sequence. -/
def fragPlaceholders : Config :=
  .map [("addr", .str "__host_interface__:eth0"), ("ip", .str "__host_label__:foo"),
        ("dns", .seq [.map [("server", .str "__host_label__: missing")], .num 53])]

/-- A string begins with neither keyword. -/
def plainString (s : String) : Bool :=
  !HasPrefix s hostLabelKeyword && !HasPrefix s hostInterfaceKeyword

mutual
/-- No string of the configuration value begins with one of the two keywords. -/
def placeholderFree : Config → Bool
  | .str s => plainString s
  | .seq xs => placeholderFreeSeq xs
  | .map kvs => placeholderFreeMap kvs
  | _ => true
/-- The same for the elements of a sequence. -/
def placeholderFreeSeq : List Config → Bool
  | [] => true
  | c :: rest => placeholderFree c && placeholderFreeSeq rest
/-- The same for the values of a mapping. -/
def placeholderFreeMap : List (String × Config) → Bool
  | [] => true
  | (_, c) :: rest => placeholderFree c && placeholderFreeMap rest
end

/-- A fragment without any placeholder. -/
def fragPlain : Config :=
  .map [("type", .str "rancher-bridge"), ("bridge", .str "docker0"), ("mtu", .num 1500),
        ("isGateway", .bool true), ("routes", .seq [.map [("dst", .str "0.0.0.0/0")], .null])]

/-- A metadata source whose host retrieval and service retrieval both fail. -/
def clientNoHost : Client :=
  ⟨.ok [], .error "host unavailable", .error "services unavailable"⟩

mutual
/-- The two configuration values have the same kind at every node, sequences of the same
length, mappings with the same keys at the same places, and equal non-string scalars; only
strings may differ. -/
def sameShape : Config → Config → Bool
  | .null, .null => true
  | .bool a, .bool b => a == b
  | .num a, .num b => a == b
  | .str _, .str _ => true
  | .seq xs, .seq ys => sameShapeSeq xs ys
  | .map kvs, .map kvs2 => sameShapeMap kvs kvs2
  | _, _ => false
/-- The same for the elements of two sequences, place by place. -/
def sameShapeSeq : List Config → List Config → Bool
  | [], [] => true
  | x :: xs, y :: ys => sameShape x y && sameShapeSeq xs ys
  | _, _ => false
/-- The same for the entries of two mappings, place by place. -/
def sameShapeMap : List (String × Config) → List (String × Config) → Bool
  | [], [] => true
  | (k, x) :: xs, (k2, y) :: ys => k == k2 && sameShape x y && sameShapeMap xs ys
  | _, _ => false
end

/-- The text of an address up to, and not including, the first `/` of its rendering. -/
def beforeSlash (s : String) : String :=
  ⟨s.data.takeWhile fun c => c != '/'⟩

/-- A network stack without any link. -/
def noLinks : NetStack :=
  ⟨fun _ => .error "Link not found", fun _ => .ok []⟩

/-- A network stack whose only link is `eth0`, with the address `192.168.1.10/24`. -/
def eth0Only : NetStack :=
  ⟨fun n => if n = "eth0" then .ok 1 else .error "Link not found",
   fun _ => .ok ["192.168.1.10/24"]⟩

/-- A host with the label `foo=10.0.0.5`. -/
def hostFoo : Host :=
  ⟨"h1", "env1", [("foo", "10.0.0.5")]⟩

/-- The string field `k` of a fragment: `props[k].(string)` for `props` the fragment taken as
a mapping. -/
def fieldStr (c : Config) (k : String) : String :=
  asString ((asMap (some c)).lookup k)

/-- A fragment (after substitution) declares the type `rancher-bridge` and a non-empty string
bridge field. -/
def qualifies (c : Config) : Prop :=
  fieldStr c "type" = "rancher-bridge" ∧ fieldStr c "bridge" ≠ ""

instance (c : Config) : Decidable (qualifies c) :=
  inferInstanceAs (Decidable (_ ∧ _))

/-- The fragment at which the scan of `GetBridgeInfo` stops, after substitution: the first one
in iteration order that qualifies. -/
def winner (ns : NetStack) (host : Host) : List (String × Config) → Option Config
  | [] => none
  | (_, file) :: rest =>
    if qualifies (UpdateCNIConfigByKeywords ns host file) then
      some (UpdateCNIConfigByKeywords ns host file)
    else winner ns host rest

/-- The string `bridgeSubnet` of the fragment iterated last, after substitution; `dflt` when
there is no fragment. -/
def lastSubnet (ns : NetStack) (host : Host) (conf : List (String × Config))
    (dflt : String) : String :=
  match conf.getLast? with
  | none => dflt
  | some e => fieldStr (UpdateCNIConfigByKeywords ns host e.2) "bridgeSubnet"

/-! ## Basic facts -/

theorem getIPFromIface_zero (ns : NetStack) (iface : String) :
    getIPFromIface ns iface 0 ≠ .panicked := by
  unfold getIPFromIface
  cases h1 : ns.LinkByName iface with
  | error e => simp
  | ok l =>
    cases h2 : ns.AddrList l with
    | error e => simp [h2]
    | ok addrs =>
      by_cases h : (addrs.length : Int) > 0
      · simp only [h2, h, if_true, le_refl]
        split <;> simp
      · simp only [h2, h, if_false]
        split <;> simp

theorem keywords_exclusive (v : String) (h : HasPrefix v hostLabelKeyword = true) :
    HasPrefix v hostInterfaceKeyword = false := by
  rcases v with ⟨l⟩
  have e1 : hostLabelKeyword.data = ['_','_','h','o','s','t','_','l','a','b','e','l','_','_'] := rfl
  have e2 : hostInterfaceKeyword.data =
    ['_','_','h','o','s','t','_','i','n','t','e','r','f','a','c','e','_','_'] := rfl
  simp only [HasPrefix, e1, e2] at h ⊢
  match l, h with
  | c0 :: c1 :: c2 :: c3 :: c4 :: c5 :: c6 :: c7 :: rest, h =>
    simp only [List.isPrefixOf, Bool.and_eq_true, beq_iff_eq] at h
    obtain ⟨-, -, -, -, -, -, -, h7, -⟩ := h
    subst h7
    simp [List.isPrefixOf]
  | [], h => simp [List.isPrefixOf] at h
  | [_], h => simp [List.isPrefixOf] at h
  | [_, _], h => simp [List.isPrefixOf] at h
  | [_, _, _], h => simp [List.isPrefixOf] at h
  | [_, _, _, _], h => simp [List.isPrefixOf] at h
  | [_, _, _, _, _], h => simp [List.isPrefixOf] at h
  | [_, _, _, _, _, _], h => simp [List.isPrefixOf] at h
  | [_, _, _, _, _, _, _], h => simp [List.isPrefixOf] at h

/-- A label placeholder with a colon is replaced by the value of the trimmed label, and the
loop goes on. -/
theorem substString_label (ns : NetStack) (host : Host) (v : String) (a b : List Char)
    (hp : HasPrefix v hostLabelKeyword = true) (hc : cutFirst ':' v.data = some (a, b)) :
    substString ns host v = (labelAt host.Labels (TrimSpace ⟨b⟩), false) := by
  have hi := keywords_exclusive v hp
  simp only [substString, hp, hi, SplitN2, hc, if_true]
  by_cases hl : labelAt host.Labels (TrimSpace ⟨b⟩) = "" <;> simp [hl]

/-- A string without either keyword in front is left as it is, and the loop goes on. -/
theorem substString_plain (ns : NetStack) (host : Host) (v : String)
    (h1 : HasPrefix v hostLabelKeyword = false) (h2 : HasPrefix v hostInterfaceKeyword = false) :
    substString ns host v = (v, false) := by
  simp [substString, h1, h2]

/-- As long as the loop is not left by `break`, it treats the entries one after the other. -/
theorem updateMap_append (ns : NetStack) (host : Host) (pre rest : List (String × Config))
    (h : mapBreaks ns host pre = false) :
    updateMap ns host (pre ++ rest) = updateMap ns host pre ++ updateMap ns host rest := by
  induction pre with
  | nil => simp [updateMap]
  | cons e pre ih =>
    obtain ⟨k, c⟩ := e
    cases c with
    | str v =>
      simp only [mapBreaks, Bool.or_eq_false_iff] at h
      simp [updateMap, h.1, ih h.2]
    | null => simp only [mapBreaks] at h; simp [updateMap, ih h]
    | bool b => simp only [mapBreaks] at h; simp [updateMap, ih h]
    | num n => simp only [mapBreaks] at h; simp [updateMap, ih h]
    | seq xs => simp only [mapBreaks] at h; simp [updateMap, ih h]
    | map kvs => simp only [mapBreaks] at h; simp [updateMap, ih h]

/-- A label placeholder with a colon that the loop over a mapping reaches is replaced by the
value of its trimmed label. -/
theorem updateMap_label_entry (ns : NetStack) (host : Host) (pre post : List (String × Config))
    (k v : String) (a b : List Char)
    (hp : HasPrefix v hostLabelKeyword = true) (hc : cutFirst ':' v.data = some (a, b))
    (hb : mapBreaks ns host pre = false) :
    updateMap ns host (pre ++ (k, .str v) :: post)
      = updateMap ns host pre
        ++ (k, .str (labelAt host.Labels (TrimSpace ⟨b⟩))) :: updateMap ns host post := by
  simp [updateMap_append ns host pre _ hb, updateMap, substString_label ns host v a b hp hc]

theorem updateSeq_append (ns : NetStack) (host : Host) (pre rest : List Config) :
    updateSeq ns host (pre ++ rest) = updateSeq ns host pre ++ updateSeq ns host rest := by
  induction pre with
  | nil => simp [updateSeq]
  | cons e pre ih => simp [updateSeq, ih]

/-! ## The keyword resolver -/

/-- C1, as stated, fails: with the label `foo=10.0.0.5`, the placeholder `__host_label__:foo`
is returned as it is when it is the configuration value itself and when it is an element of a
sequence. -/
theorem C1_scalar_and_element_not_replaced :
    UpdateCNIConfigByKeywords noLinks hostFoo (.str "__host_label__:foo")
        = .str "__host_label__:foo"
      ∧ UpdateCNIConfigByKeywords noLinks hostFoo (.str "__host_label__:foo")
        ≠ .str "10.0.0.5"
      ∧ UpdateCNIConfigByKeywords noLinks hostFoo (.seq [.str "__host_label__:foo"])
        = .seq [.str "__host_label__:foo"]
      ∧ UpdateCNIConfigByKeywords noLinks hostFoo (.seq [.str "__host_label__:foo"])
        ≠ .seq [.str "10.0.0.5"] := by
  refine ⟨rfl, ?_, rfl, ?_⟩
  · simp only [UpdateCNIConfigByKeywords, ne_eq, Config.str.injEq]
    decide
  · simp only [UpdateCNIConfigByKeywords, updateSeq, ne_eq, Config.seq.injEq,
      List.cons.injEq, Config.str.injEq, and_true]
    decide

/-- C1, amended: for a host whose label `foo` has the value `v`, the string
`__host_label__:foo` is replaced by `v` where it is a value of a mapping, whatever stands
before and after it, as long as the loop over the mapping reaches it; where it is the
configuration value itself or an element of a sequence it is returned unchanged. -/
theorem C1_label_placeholder_by_position (ns : NetStack) (host : Host) (v : String)
    (hv : host.Labels.lookup "foo" = some v) :
    UpdateCNIConfigByKeywords ns host (.str "__host_label__:foo") = .str "__host_label__:foo"
    ∧ (∀ pre post : List Config,
        UpdateCNIConfigByKeywords ns host (.seq (pre ++ .str "__host_label__:foo" :: post))
          = .seq (updateSeq ns host pre ++ .str "__host_label__:foo" :: updateSeq ns host post))
    ∧ (∀ (pre post : List (String × Config)) (k : String), mapBreaks ns host pre = false →
        UpdateCNIConfigByKeywords ns host (.map (pre ++ (k, .str "__host_label__:foo") :: post))
          = .map (updateMap ns host pre ++ (k, .str v) :: updateMap ns host post)) := by
  have hs : substString ns host "__host_label__:foo" = (v, false) := by
    have h := substString_label ns host "__host_label__:foo" "__host_label__".data "foo".data
      (by decide) (by decide)
    have ht : TrimSpace ⟨"foo".data⟩ = "foo" := by decide
    rw [h, ht]
    simp [labelAt, hv]
  refine ⟨rfl, ?_, ?_⟩
  · intro pre post
    simp [UpdateCNIConfigByKeywords, updateSeq_append, updateSeq]
  · intro pre post k hb
    simp [UpdateCNIConfigByKeywords, updateMap_append ns host pre _ hb, updateMap, hs]

/-- C1, amended, at the host with `foo=10.0.0.5`, behind an integer entry. -/
theorem C1_label_placeholder_by_position_witness :
    hostFoo.Labels.lookup "foo" = some "10.0.0.5" ∧
    mapBreaks noLinks hostFoo [("mtu", .num 1500)] = false ∧
    UpdateCNIConfigByKeywords noLinks hostFoo
        (.map ([("mtu", .num 1500)] ++ ("ip", .str "__host_label__:foo") :: []))
      = .map (updateMap noLinks hostFoo [("mtu", .num 1500)] ++
          ("ip", .str "10.0.0.5") :: updateMap noLinks hostFoo []) :=
  ⟨by decide, by decide,
    (C1_label_placeholder_by_position noLinks hostFoo "10.0.0.5" (by decide)).2.2
      [("mtu", .num 1500)] [] "ip" (by decide)⟩

/-- C2 at the failing input: the mapping `addr: __host_interface__:eth9, ip: __host_label__:foo`
visited in this order, on a host with `foo=10.0.0.5` and no link `eth9`.  The value at `ip`
starts with the label keyword and has a colon, its label has the value `10.0.0.5`, and yet the
value at `ip` is the placeholder itself after the call. -/
theorem C2_label_entry_after_failed_lookup :
    HasPrefix "__host_label__:foo" hostLabelKeyword = true
    ∧ SplitN2 "__host_label__:foo" ':' = ["__host_label__", "foo"]
    ∧ labelAt hostFoo.Labels (TrimSpace "foo") = "10.0.0.5"
    ∧ UpdateCNIConfigByKeywords noLinks hostFoo
        (.map [("addr", .str "__host_interface__:eth9"), ("ip", .str "__host_label__:foo")])
      = .map [("addr", .str ""), ("ip", .str "__host_label__:foo")]
    ∧ fieldStr (UpdateCNIConfigByKeywords noLinks hostFoo
        (.map [("addr", .str "__host_interface__:eth9"), ("ip", .str "__host_label__:foo")])) "ip"
      ≠ "10.0.0.5" := by
  refine ⟨by decide, by decide, by decide, rfl, by decide⟩

/-- C3 at the failing input: the mapping with `addr: __host_interface__:eth9` (no such link),
`ip: __host_label__:foo` and the nested mapping `ipam: (gw: __host_label__:foo)`.  Visited with
`addr` first, the failing field becomes empty and the two other entries are left unresolved;
without the failing entry, and also with it visited last, they are resolved. -/
theorem C3_failed_lookup_stops_the_loop :
    UpdateCNIConfigByKeywords noLinks hostFoo
        (.map [("addr", .str "__host_interface__:eth9"), ("ip", .str "__host_label__:foo"),
               ("ipam", .map [("gw", .str "__host_label__:foo")])])
      = .map [("addr", .str ""), ("ip", .str "__host_label__:foo"),
              ("ipam", .map [("gw", .str "__host_label__:foo")])]
    ∧ UpdateCNIConfigByKeywords noLinks hostFoo
        (.map [("ip", .str "__host_label__:foo"),
               ("ipam", .map [("gw", .str "__host_label__:foo")])])
      = .map [("ip", .str "10.0.0.5"), ("ipam", .map [("gw", .str "10.0.0.5")])]
    ∧ UpdateCNIConfigByKeywords noLinks hostFoo
        (.map [("ip", .str "__host_label__:foo"),
               ("ipam", .map [("gw", .str "__host_label__:foo")]),
               ("addr", .str "__host_interface__:eth9")])
      = .map [("ip", .str "10.0.0.5"), ("ipam", .map [("gw", .str "10.0.0.5")]),
              ("addr", .str "")] :=
  ⟨rfl, rfl, rfl⟩

/-! ## The bridge info extractor -/

theorem scanFragments_cons (ns : NetStack) (host : Host) (k : String) (file : Config)
    (rest : List (String × Config)) (st : String × String) :
    scanFragments ns host ((k, file) :: rest) st =
      if qualifies (UpdateCNIConfigByKeywords ns host file) then
        (fieldStr (UpdateCNIConfigByKeywords ns host file) "bridge",
         fieldStr (UpdateCNIConfigByKeywords ns host file) "bridgeSubnet")
      else scanFragments ns host rest
        (st.1, fieldStr (UpdateCNIConfigByKeywords ns host file) "bridgeSubnet") := by
  obtain ⟨b, s⟩ := st
  simp only [scanFragments, qualifies, fieldStr]

theorem lastSubnet_cons (ns : NetStack) (host : Host) (e : String × Config)
    (rest : List (String × Config)) (d : String) :
    lastSubnet ns host (e :: rest) d =
      lastSubnet ns host rest (fieldStr (UpdateCNIConfigByKeywords ns host e.2) "bridgeSubnet") := by
  cases rest with
  | nil => simp [lastSubnet]
  | cons e2 r =>
    simp only [lastSubnet, List.getLast?_cons_cons]
    cases h : (e2 :: r).getLast? with
    | none => simp at h
    | some x => rfl

theorem winner_eq_none (ns : NetStack) (host : Host) (conf : List (String × Config)) :
    winner ns host conf = none ↔
      ∀ e ∈ conf, ¬ qualifies (UpdateCNIConfigByKeywords ns host e.2) := by
  induction conf with
  | nil => simp [winner]
  | cons e conf ih =>
    obtain ⟨k, f⟩ := e
    by_cases hq : qualifies (UpdateCNIConfigByKeywords ns host f)
    · simp [winner, hq]
    · simp [winner, hq, ih]

/-- Without a qualifying fragment the scan keeps the bridge it started from and ends with the
subnet of the fragment iterated last. -/
theorem scanFragments_of_winner_none (ns : NetStack) (host : Host)
    (conf : List (String × Config)) (st : String × String)
    (h : winner ns host conf = none) :
    scanFragments ns host conf st = (st.1, lastSubnet ns host conf st.2) := by
  induction conf generalizing st with
  | nil => simp [scanFragments, lastSubnet]
  | cons e conf ih =>
    obtain ⟨k, f⟩ := e
    by_cases hq : qualifies (UpdateCNIConfigByKeywords ns host f)
    · simp [winner, hq] at h
    · simp only [winner, hq, if_false] at h
      rw [scanFragments_cons, if_neg hq, ih _ h, lastSubnet_cons]

/-- The scan stops at the first qualifying fragment and returns its two fields. -/
theorem scanFragments_of_winner_some (ns : NetStack) (host : Host)
    (conf : List (String × Config)) (st : String × String) (w : Config)
    (h : winner ns host conf = some w) :
    scanFragments ns host conf st = (fieldStr w "bridge", fieldStr w "bridgeSubnet")
      ∧ qualifies w := by
  induction conf generalizing st with
  | nil => simp [winner] at h
  | cons e conf ih =>
    obtain ⟨k, f⟩ := e
    by_cases hq : qualifies (UpdateCNIConfigByKeywords ns host f)
    · simp only [winner, hq, if_true, Option.some.injEq] at h
      subst h
      rw [scanFragments_cons, if_pos hq]
      exact ⟨rfl, hq⟩
    · simp only [winner, hq, if_false] at h
      rw [scanFragments_cons, if_neg hq]
      exact ih _ h

/-- When every qualifying fragment is the fragment `frag`, and there is one, the scan stops
at it. -/
theorem winner_of_unique (ns : NetStack) (host : Host) (conf : List (String × Config))
    (frag : Config)
    (hex : ∃ e ∈ conf, qualifies (UpdateCNIConfigByKeywords ns host e.2))
    (huniq : ∀ e ∈ conf, qualifies (UpdateCNIConfigByKeywords ns host e.2) → e.2 = frag) :
    winner ns host conf = some (UpdateCNIConfigByKeywords ns host frag) := by
  induction conf with
  | nil => simp at hex
  | cons e conf ih =>
    obtain ⟨k, f⟩ := e
    by_cases hq : qualifies (UpdateCNIConfigByKeywords ns host f)
    · have hf : f = frag := huniq (k, f) (List.mem_cons_self _ _) hq
      subst hf
      simp [winner, hq]
    · simp only [winner, hq, if_false]
      apply ih
      · obtain ⟨e, he, hqe⟩ := hex
        rcases List.mem_cons.1 he with rfl | he
        · exact absurd hqe hq
        · exact ⟨e, he, hqe⟩
      · intro e he
        exact huniq e (List.mem_cons_of_mem _ he)

/-- C4, as stated, fails: the only fragment of the network has the type `other` and declares
the subnet `10.1.0.0/16`; no fragment has type `rancher-bridge`, and the result is not the pair
of empty strings. -/
theorem C4_subnet_without_bridge :
    (∀ e ∈ asMap (netOther.Metadata.lookup "cniConfig"),
        fieldStr (UpdateCNIConfigByKeywords noLinks hostFoo e.2) "type" ≠ "rancher-bridge")
    ∧ GetBridgeInfo noLinks netOther hostFoo = ("", "10.1.0.0/16")
    ∧ GetBridgeInfo noLinks netOther hostFoo ≠ ("", "") := by
  refine ⟨?_, rfl, by decide⟩
  intro e he
  have : e = ("10-other.conf",
      Config.map [("type", .str "other"), ("bridgeSubnet", .str "10.1.0.0/16")]) := by
    simpa [netOther, asMap] using he
  subst this
  decide

/-- C4, amended: whenever no fragment of the network, after substitution, has type
`rancher-bridge` together with a non-empty bridge field, `GetBridgeInfo` returns the empty
bridge and the string `bridgeSubnet` of the fragment iterated last (the empty string when
the network has no fragment); so the result is the pair of empty strings when that last
fragment has no non-empty string `bridgeSubnet`. -/
theorem C4_no_match_gives_last_subnet (ns : NetStack) (network : Network) (host : Host)
    (hno : ∀ e ∈ asMap (network.Metadata.lookup "cniConfig"),
      ¬ qualifies (UpdateCNIConfigByKeywords ns host e.2)) :
    GetBridgeInfo ns network host
        = ("", lastSubnet ns host (asMap (network.Metadata.lookup "cniConfig")) "")
    ∧ (lastSubnet ns host (asMap (network.Metadata.lookup "cniConfig")) "" = "" →
        GetBridgeInfo ns network host = ("", "")) := by
  have h := scanFragments_of_winner_none ns host _ ("", "") ((winner_eq_none ns host _).2 hno)
  refine ⟨h, ?_⟩
  intro hl
  rw [GetBridgeInfo, h, hl]

/-- C4, amended, at the network whose only fragment has another type. -/
theorem C4_no_match_gives_last_subnet_witness :
    (∀ e ∈ asMap (netOther.Metadata.lookup "cniConfig"),
        ¬ qualifies (UpdateCNIConfigByKeywords noLinks hostFoo e.2))
    ∧ GetBridgeInfo noLinks netOther hostFoo
        = ("", lastSubnet noLinks hostFoo (asMap (netOther.Metadata.lookup "cniConfig")) "") :=
  have hno : ∀ e ∈ asMap (netOther.Metadata.lookup "cniConfig"),
      ¬ qualifies (UpdateCNIConfigByKeywords noLinks hostFoo e.2) := by
    intro e he
    have : e = ("10-other.conf",
        Config.map [("type", .str "other"), ("bridgeSubnet", .str "10.1.0.0/16")]) := by
      simpa [netOther, asMap] using he
    subst this
    decide
  ⟨hno, (C4_no_match_gives_last_subnet noLinks netOther hostFoo hno).1⟩

/-- C5: when exactly one fragment of the network's cniConfig qualifies after substitution
(type `rancher-bridge`, non-empty string bridge), `GetBridgeInfo` returns the substituted
bridge and the substituted string `bridgeSubnet` of that fragment, in whatever order
`visited` the fragments `conf` are iterated and whatever the other fragments hold. -/
theorem C5_unique_bridge_fragment (ns : NetStack) (network : Network) (host : Host)
    (conf visited : List (String × Config)) (name : String) (frag : Config)
    (hmeta : network.Metadata.lookup "cniConfig" = some (.map visited))
    (horder : visited.Perm conf)
    (hmem : (name, frag) ∈ conf)
    (hq : qualifies (UpdateCNIConfigByKeywords ns host frag))
    (huniq : ∀ e ∈ conf, qualifies (UpdateCNIConfigByKeywords ns host e.2) → e = (name, frag)) :
    GetBridgeInfo ns network host
      = (fieldStr (UpdateCNIConfigByKeywords ns host frag) "bridge",
         fieldStr (UpdateCNIConfigByKeywords ns host frag) "bridgeSubnet") := by
  have hw : winner ns host visited = some (UpdateCNIConfigByKeywords ns host frag) := by
    apply winner_of_unique
    · exact ⟨(name, frag), horder.mem_iff.2 hmem, hq⟩
    · intro e he hqe
      rw [huniq e (horder.mem_iff.1 he) hqe]
  simp only [GetBridgeInfo, hmeta, asMap]
  exact (scanFragments_of_winner_some ns host visited ("", "") _ hw).1

/-- C5 at the spec's example: the bridge fragment and a fragment of another type, the latter
iterated first. -/
theorem C5_unique_bridge_fragment_witness :
    netTwo.Metadata.lookup "cniConfig"
        = some (.map [("10-other.conf", fragOther), ("20-br.conf", fragBridge)])
    ∧ [("10-other.conf", fragOther), ("20-br.conf", fragBridge)].Perm
        [("20-br.conf", fragBridge), ("10-other.conf", fragOther)]
    ∧ qualifies (UpdateCNIConfigByKeywords noLinks hostFoo fragBridge)
    ∧ GetBridgeInfo noLinks netTwo hostFoo = ("docker0", "10.42.0.0/16") :=
  ⟨rfl, List.Perm.swap _ _ _, by decide,
    C5_unique_bridge_fragment noLinks netTwo hostFoo
      [("20-br.conf", fragBridge), ("10-other.conf", fragOther)]
      [("10-other.conf", fragOther), ("20-br.conf", fragBridge)] "20-br.conf" fragBridge
      rfl (List.Perm.swap _ _ _) (List.mem_cons_self _ _) (by decide)
      (by
        intro e he hq
        rcases List.mem_cons.1 he with rfl | he
        · rfl
        · rcases List.mem_cons.1 he with rfl | he
          · exact absurd hq (by decide)
          · simp at he)⟩

/-- C6, as stated, fails: there is no network, host and iteration order for which a fragment
wins (the returned bridge is non-empty) and the returned subnet differs from the
`bridgeSubnet` of the winning fragment. -/
theorem C6_subnet_never_from_another_fragment :
    ¬ ∃ (ns : NetStack) (network : Network) (host : Host) (w : Config),
        winner ns host (asMap (network.Metadata.lookup "cniConfig")) = some w
        ∧ (GetBridgeInfo ns network host).1 ≠ ""
        ∧ (GetBridgeInfo ns network host).2 ≠ fieldStr w "bridgeSubnet" := by
  rintro ⟨ns, network, host, w, hw, -, hne⟩
  apply hne
  simp only [GetBridgeInfo]
  rw [(scanFragments_of_winner_some ns host _ ("", "") w hw).1]

/-- C6, amended: the returned subnet is that of the fragment at which the scan ends.  When a
fragment wins, the returned bridge is non-empty and bridge and subnet are both those of the
winner; the returned bridge is non-empty only then.  A subnet from a fragment that supplied no
bridge name is returned only together with the empty bridge, as for the network `netOther`. -/
theorem C6_subnet_of_last_scanned (ns : NetStack) (network : Network) (host : Host) :
    (∀ w, winner ns host (asMap (network.Metadata.lookup "cniConfig")) = some w →
        GetBridgeInfo ns network host = (fieldStr w "bridge", fieldStr w "bridgeSubnet")
        ∧ fieldStr w "bridge" ≠ "")
    ∧ ((GetBridgeInfo ns network host).1 ≠ "" →
        ∃ w, winner ns host (asMap (network.Metadata.lookup "cniConfig")) = some w)
    ∧ (GetBridgeInfo noLinks netOther hostFoo).1 = ""
    ∧ (GetBridgeInfo noLinks netOther hostFoo).2 = "10.1.0.0/16" := by
  refine ⟨?_, ?_, rfl, rfl⟩
  · intro w hw
    have h := scanFragments_of_winner_some ns host _ ("", "") w hw
    exact ⟨h.1, h.2.2⟩
  · intro hb
    cases hw : winner ns host (asMap (network.Metadata.lookup "cniConfig")) with
    | some w => exact ⟨w, rfl⟩
    | none =>
      exfalso
      apply hb
      simp only [GetBridgeInfo]
      rw [scanFragments_of_winner_none ns host _ ("", "") hw]

/-- C6, amended, at the network with a bridge fragment iterated after another fragment that
declares a subnet of its own. -/
theorem C6_subnet_of_last_scanned_witness :
    winner noLinks hostFoo (asMap (netTwo.Metadata.lookup "cniConfig")) = some fragBridge
    ∧ GetBridgeInfo noLinks netTwo hostFoo
        = (fieldStr fragBridge "bridge", fieldStr fragBridge "bridgeSubnet")
    ∧ fieldStr fragBridge "bridge" ≠ "" :=
  ⟨rfl, (C6_subnet_of_last_scanned noLinks netTwo hostFoo).1 fragBridge rfl⟩

/-! ## The local topology query -/

theorem addNetworks_eq (host : Host) (networks acc : List Network) :
    addNetworks host networks acc = acc ++ networks.filter fun n =>
      decide (n.EnvironmentUUID = host.EnvironmentUUID) && isMap (n.Metadata.lookup "cniConfig") := by
  induction networks generalizing acc with
  | nil => simp [addNetworks]
  | cons n rest ih =>
    by_cases he : n.EnvironmentUUID = host.EnvironmentUUID
    · by_cases hm : isMap (n.Metadata.lookup "cniConfig") = true
      · simp [addNetworks, he, hm, ih]
      · simp [addNetworks, he, hm, ih]
    · simp [addNetworks, he, ih]

theorem isMap_iff (x : Option Config) : isMap x = true ↔ ∃ kvs, x = some (.map kvs) := by
  cases x with
  | none => simp [isMap]
  | some c => cases c <;> simp [isMap]

theorem addContainers_eq (host : Host) (cs : List Container)
    (m : String → Option Container) (n : String) :
    addContainers host cs m n =
      (((cs.filter fun c => c.HostUUID = host.UUID).filter
        fun c => c.NetworkUUID = n).getLast?).or (m n) := by
  induction cs generalizing m with
  | nil => simp [addContainers]
  | cons c rest ih =>
    by_cases hh : c.HostUUID = host.UUID
    · by_cases hn : c.NetworkUUID = n
      · subst hn
        simp only [addContainers, hh, if_true, ih, setRouter, decide_True,
          List.filter_cons_of_pos]
        rw [List.getLast?_cons]
        cases ((rest.filter fun c => decide (c.HostUUID = host.UUID)).filter
          fun c2 => decide (c2.NetworkUUID = c.NetworkUUID)).getLast? <;> simp
      · have hn2 : ¬ n = c.NetworkUUID := fun h => hn h.symm
        simp [addContainers, hh, ih, setRouter, hn, hn2]
    · simp [addContainers, hh, ih]

theorem addServices_eq (host : Host) (services : List Service)
    (m : String → Option Container) (n : String) :
    addServices host services m n =
      (((routerCandidates host services).filter fun c => c.NetworkUUID = n).getLast?).or (m n) := by
  induction services generalizing m with
  | nil => simp [addServices, routerCandidates]
  | cons s rest ih =>
    have hc : routerCandidates host (s :: rest) =
        (if s.Kind = "networkDriverService" ∧ s.Name = s.PrimaryServiceName then
          s.Containers.filter fun c => c.HostUUID = host.UUID
        else []) ++ routerCandidates host rest := by
      simp [routerCandidates]
    by_cases hs : s.Kind = "networkDriverService" ∧ s.Name = s.PrimaryServiceName
    · rw [hc, if_pos hs]
      simp only [addServices, hs, not_true_eq_false, if_false, and_self, ih, addContainers_eq,
        List.filter_append, List.getLast?_append]
      cases ((routerCandidates host rest).filter fun c => decide (c.NetworkUUID = n)).getLast?
        <;> simp
    · rw [hc, if_neg hs]
      simp only [addServices, hs, not_false_eq_true, if_true, ih, List.nil_append]

/-- C7: the returned network list is the input list filtered, order and multiplicity kept, to
the networks of the host's environment whose metadata has a mapping under `cniConfig`; a
network is returned exactly when it is in the input and meets both conditions. -/
theorem C7_local_networks_filter (networks : List Network) (host : Host)
    (services : List Service) :
    (GetLocalNetworksAndRouters networks host services).1
        = networks.filter (fun n =>
            decide (n.EnvironmentUUID = host.EnvironmentUUID)
              && isMap (n.Metadata.lookup "cniConfig"))
    ∧ ∀ n, n ∈ (GetLocalNetworksAndRouters networks host services).1 ↔
        n ∈ networks ∧ n.EnvironmentUUID = host.EnvironmentUUID
          ∧ ∃ kvs, n.Metadata.lookup "cniConfig" = some (.map kvs) := by
  have h : (GetLocalNetworksAndRouters networks host services).1
      = networks.filter (fun n =>
          decide (n.EnvironmentUUID = host.EnvironmentUUID)
            && isMap (n.Metadata.lookup "cniConfig")) := by
    simp [GetLocalNetworksAndRouters, addNetworks_eq]
  refine ⟨h, ?_⟩
  intro n
  rw [h]
  simp [List.mem_filter, isMap_iff]

/-- C8: for every network identifier `n`, the router map has an entry for `n` exactly when a
container of `Q` (`routerCandidates`) has the network identifier `n`, and the entry is the
last such container of `Q`. -/
theorem C8_router_is_last_candidate (networks : List Network) (host : Host)
    (services : List Service) (n : String) :
    (GetLocalNetworksAndRouters networks host services).2 n
      = ((routerCandidates host services).filter fun c => c.NetworkUUID = n).getLast? := by
  simp [GetLocalNetworksAndRouters, addServices_eq]

/-- C9 at the failing input: the network `n9` belongs to another environment than the host and
is not returned, while the container `c1` of the canonical network driver service runs on the
host on the network `n9`; the router map has the key `n9`, which is the identifier of no
returned network. -/
theorem C9_router_of_unreturned_network :
    (GetLocalNetworksAndRouters [netElsewhere] hostFoo [svcIpsec]).2 "n9" = some routerN9
    ∧ (GetLocalNetworksAndRouters [netElsewhere] hostFoo [svcIpsec]).1 = []
    ∧ ¬ ∃ net ∈ (GetLocalNetworksAndRouters [netElsewhere] hostFoo [svcIpsec]).1,
        net.UUID = "n9" := by
  have h : (GetLocalNetworksAndRouters [netElsewhere] hostFoo [svcIpsec]).1 = [] := rfl
  refine ⟨by decide, h, ?_⟩
  rw [h]
  simp

/-- The loops of utils.go 110-125 read the services and the host only: an entry of the router
map under `n` is a container of the network `n` that runs on the host and belongs to a
service of kind `networkDriverService` whose name is its primary service name, and the map
is the same whatever networks are passed. -/
theorem routers_from_services (networks : List Network) (host : Host)
    (services : List Service) (n : String) (c : Container)
    (h : (GetLocalNetworksAndRouters networks host services).2 n = some c) :
    c.NetworkUUID = n ∧ c.HostUUID = host.UUID
    ∧ (∃ s ∈ services, s.Kind = "networkDriverService" ∧ s.Name = s.PrimaryServiceName
        ∧ c ∈ s.Containers)
    ∧ ∀ networks2, (GetLocalNetworksAndRouters networks2 host services).2
        = (GetLocalNetworksAndRouters networks host services).2 := by
  have h2 : ((routerCandidates host services).filter fun c => c.NetworkUUID = n).getLast?
      = some c := by
    simpa [GetLocalNetworksAndRouters, addServices_eq] using h
  have hm := List.mem_of_getLast?_eq_some h2
  rw [List.mem_filter] at hm
  obtain ⟨hq, hn⟩ := hm
  simp only [routerCandidates, List.mem_flatMap] at hq
  obtain ⟨s, hs, hcs⟩ := hq
  by_cases hk : s.Kind = "networkDriverService" ∧ s.Name = s.PrimaryServiceName
  · rw [if_pos hk, List.mem_filter] at hcs
    exact ⟨by simpa using hn, by simpa using hcs.2, ⟨s, hs, hk.1, hk.2, hcs.1⟩, fun _ => rfl⟩
  · rw [if_neg hk] at hcs
    simp at hcs

/-! ## Applying the resolver twice -/

theorem labelAt_eq (labels : List (String × String)) (l : String) :
    labelAt labels l = "" ∨ ∃ e ∈ labels, e.2 = labelAt labels l := by
  induction labels with
  | nil => left; rfl
  | cons e rest ih =>
    obtain ⟨k, v⟩ := e
    by_cases hk : l = k
    · right
      exact ⟨(k, v), List.mem_cons_self _ _, by simp [labelAt, List.lookup, hk]⟩
    · have hb : (l == k) = false := by simpa using hk
      have : labelAt ((k, v) :: rest) l = labelAt rest l := by
        simp [labelAt, List.lookup, hb]
      rw [this]
      rcases ih with h | ⟨e, he, h⟩
      · left; exact h
      · right; exact ⟨e, List.mem_cons_of_mem _ he, h⟩

/-- When neither a label value nor a looked-up address begins with a keyword, the string the
loop body stores is left alone by a second visit, unless the body was left by `break`. -/
theorem substString_again (ns : NetStack) (host : Host) (v : String)
    (hlabels : ∀ e ∈ host.Labels,
      HasPrefix e.2 hostLabelKeyword = false ∧ HasPrefix e.2 hostInterfaceKeyword = false)
    (hips : ∀ iface ip, getIPFromIface ns iface 0 = .ret ip none →
      HasPrefix ip hostLabelKeyword = false ∧ HasPrefix ip hostInterfaceKeyword = false)
    (hb : (substString ns host v).2 = false) :
    substString ns host (substString ns host v).1 = ((substString ns host v).1, false) := by
  have hempty : HasPrefix "" hostLabelKeyword = false ∧ HasPrefix "" hostInterfaceKeyword = false :=
    ⟨by decide, by decide⟩
  have hlab : ∀ l, HasPrefix (labelAt host.Labels l) hostLabelKeyword = false
      ∧ HasPrefix (labelAt host.Labels l) hostInterfaceKeyword = false := by
    intro l
    rcases labelAt_eq host.Labels l with h | ⟨e, he, h⟩
    · rw [h]; exact hempty
    · rw [← h]; exact hlabels e he
  suffices h : HasPrefix (substString ns host v).1 hostLabelKeyword = false
      ∧ HasPrefix (substString ns host v).1 hostInterfaceKeyword = false from
    substString_plain ns host _ h.1 h.2
  by_cases h1 : HasPrefix v hostLabelKeyword = true
  · have h2 := keywords_exclusive v h1
    by_cases hs : (SplitN2 v ':').length > 1
    · have : (substString ns host v).1
          = labelAt host.Labels (TrimSpace ((SplitN2 v ':').getD 1 "")) := by
        simp only [substString, h1, h2, hs, if_true, Bool.false_eq_true, if_false]
        by_cases hl : labelAt host.Labels (TrimSpace ((SplitN2 v ':').getD 1 "")) = ""
        · simp only [hl, ne_eq, not_true_eq_false, if_false]
        · simp only [hl, ne_eq, not_false_eq_true, if_true]
      rw [this]
      exact hlab _
    · have : (substString ns host v).1 = "" := by
        simp [substString, h1, h2, hs]
      rw [this]
      exact hempty
  · have h1f : HasPrefix v hostLabelKeyword = false := by simpa using h1
    by_cases h2 : HasPrefix v hostInterfaceKeyword = true
    · by_cases hs : (SplitN2 v ':').length > 1
      · cases hg : getIPFromIface ns (TrimSpace ((SplitN2 v ':').getD 1 "")) 0 with
        | panicked => exact absurd hg (getIPFromIface_zero ns _)
        | ret ip err =>
          cases err with
          | none =>
            have : (substString ns host v).1 = ip := by
              simp only [substString, h1f, h2, hs, hg, if_true]
            rw [this]
            exact hips _ ip hg
          | some e =>
            have : (substString ns host v).2 = true := by
              simp only [substString, h1f, h2, hs, hg, if_true]
            rw [this] at hb
            exact absurd hb (by decide)
      · have : (substString ns host v).1 = "" := by
          simp [substString, h1f, h2, hs]
        rw [this]
        exact hempty
    · have h2f : HasPrefix v hostInterfaceKeyword = false := by simpa using h2
      rw [substString_plain ns host v h1f h2f]
      exact ⟨h1f, h2f⟩

mutual
theorem update_again (ns : NetStack) (host : Host)
    (hlabels : ∀ e ∈ host.Labels,
      HasPrefix e.2 hostLabelKeyword = false ∧ HasPrefix e.2 hostInterfaceKeyword = false)
    (hips : ∀ iface ip, getIPFromIface ns iface 0 = .ret ip none →
      HasPrefix ip hostLabelKeyword = false ∧ HasPrefix ip hostInterfaceKeyword = false) :
    ∀ c : Config, noBreak ns host c = true →
      UpdateCNIConfigByKeywords ns host (UpdateCNIConfigByKeywords ns host c)
        = UpdateCNIConfigByKeywords ns host c
  | .null, _ => rfl
  | .bool _, _ => rfl
  | .num _, _ => rfl
  | .str _, _ => rfl
  | .seq xs, h => by
    simp only [noBreak] at h
    simp only [UpdateCNIConfigByKeywords, updateSeq_again ns host hlabels hips xs h]
  | .map kvs, h => by
    simp only [noBreak] at h
    simp only [UpdateCNIConfigByKeywords, updateMap_again ns host hlabels hips kvs h]
theorem updateSeq_again (ns : NetStack) (host : Host)
    (hlabels : ∀ e ∈ host.Labels,
      HasPrefix e.2 hostLabelKeyword = false ∧ HasPrefix e.2 hostInterfaceKeyword = false)
    (hips : ∀ iface ip, getIPFromIface ns iface 0 = .ret ip none →
      HasPrefix ip hostLabelKeyword = false ∧ HasPrefix ip hostInterfaceKeyword = false) :
    ∀ xs : List Config, noBreakSeq ns host xs = true →
      updateSeq ns host (updateSeq ns host xs) = updateSeq ns host xs
  | [], _ => rfl
  | c :: rest, h => by
    simp only [noBreakSeq, Bool.and_eq_true] at h
    simp only [updateSeq, update_again ns host hlabels hips c h.1,
      updateSeq_again ns host hlabels hips rest h.2]
theorem updateMap_again (ns : NetStack) (host : Host)
    (hlabels : ∀ e ∈ host.Labels,
      HasPrefix e.2 hostLabelKeyword = false ∧ HasPrefix e.2 hostInterfaceKeyword = false)
    (hips : ∀ iface ip, getIPFromIface ns iface 0 = .ret ip none →
      HasPrefix ip hostLabelKeyword = false ∧ HasPrefix ip hostInterfaceKeyword = false) :
    ∀ kvs : List (String × Config), noBreakMap ns host kvs = true →
      updateMap ns host (updateMap ns host kvs) = updateMap ns host kvs
  | [], _ => rfl
  | (k, .str v) :: rest, h => by
    simp only [noBreakMap, Bool.and_eq_true, Bool.not_eq_true'] at h
    have hs := substString_again ns host v hlabels hips h.1
    simp only [updateMap, h.1, Bool.false_eq_true, if_false, hs,
      updateMap_again ns host hlabels hips rest h.2]
  | (k, .null) :: rest, h => by
    simp only [noBreakMap, Bool.and_eq_true] at h
    simp only [updateMap, UpdateCNIConfigByKeywords,
      updateMap_again ns host hlabels hips rest h.2]
  | (k, .bool _) :: rest, h => by
    simp only [noBreakMap, Bool.and_eq_true] at h
    simp only [updateMap, UpdateCNIConfigByKeywords,
      updateMap_again ns host hlabels hips rest h.2]
  | (k, .num _) :: rest, h => by
    simp only [noBreakMap, Bool.and_eq_true] at h
    simp only [updateMap, UpdateCNIConfigByKeywords,
      updateMap_again ns host hlabels hips rest h.2]
  | (k, .seq xs) :: rest, h => by
    simp only [noBreakMap, Bool.and_eq_true, noBreak] at h
    simp only [updateMap, UpdateCNIConfigByKeywords,
      updateSeq_again ns host hlabels hips xs h.1,
      updateMap_again ns host hlabels hips rest h.2]
  | (k, .map kvs) :: rest, h => by
    simp only [noBreakMap, Bool.and_eq_true, noBreak] at h
    simp only [updateMap, UpdateCNIConfigByKeywords,
      updateMap_again ns host hlabels hips kvs h.1,
      updateMap_again ns host hlabels hips rest h.2]
end

/-- C10, as stated, fails: on a host whose label `foo` holds the text `__host_label__:bar`,
one pass turns the field into that text and a second pass turns it into the value of `bar`. -/
theorem C10_second_pass_changes_value :
    UpdateCNIConfigByKeywords noLinks hostChained (.map [("ip", .str "__host_label__:foo")])
        = .map [("ip", .str "__host_label__:bar")]
    ∧ UpdateCNIConfigByKeywords noLinks hostChained
        (UpdateCNIConfigByKeywords noLinks hostChained (.map [("ip", .str "__host_label__:foo")]))
        = .map [("ip", .str "10.0.0.5")]
    ∧ UpdateCNIConfigByKeywords noLinks hostChained
        (UpdateCNIConfigByKeywords noLinks hostChained (.map [("ip", .str "__host_label__:foo")]))
        ≠ UpdateCNIConfigByKeywords noLinks hostChained (.map [("ip", .str "__host_label__:foo")]) := by
  have h1 : UpdateCNIConfigByKeywords noLinks hostChained
      (.map [("ip", .str "__host_label__:foo")]) = .map [("ip", .str "__host_label__:bar")] := rfl
  have h2 : UpdateCNIConfigByKeywords noLinks hostChained
      (.map [("ip", .str "__host_label__:bar")]) = .map [("ip", .str "10.0.0.5")] := rfl
  refine ⟨h1, by rw [h1, h2], ?_⟩
  rw [h1, h2]
  simp only [ne_eq, Config.map.injEq, List.cons.injEq, Prod.mk.injEq, Config.str.injEq,
    and_true, true_and]
  decide

/-- C10, amended: when no label value of the host and no address returned by the interface
lookup begins with one of the two keywords, and no loop over a mapping of the value is left
by `break` (every interface placeholder with a colon resolves), applying the resolver to its
own output yields the same value as applying it once. -/
theorem C10_idempotent_on_resolved_values (ns : NetStack) (host : Host) (c : Config)
    (hlabels : ∀ e ∈ host.Labels,
      HasPrefix e.2 hostLabelKeyword = false ∧ HasPrefix e.2 hostInterfaceKeyword = false)
    (hips : ∀ iface ip, getIPFromIface ns iface 0 = .ret ip none →
      HasPrefix ip hostLabelKeyword = false ∧ HasPrefix ip hostInterfaceKeyword = false)
    (hnb : noBreak ns host c = true) :
    UpdateCNIConfigByKeywords ns host (UpdateCNIConfigByKeywords ns host c)
      = UpdateCNIConfigByKeywords ns host c :=
  update_again ns host hlabels hips c hnb

theorem hostFoo_labels_plain : ∀ e ∈ hostFoo.Labels,
    HasPrefix e.2 hostLabelKeyword = false ∧ HasPrefix e.2 hostInterfaceKeyword = false := by
  intro e he
  have : e = ("foo", "10.0.0.5") := by simpa [hostFoo] using he
  subst this
  exact ⟨by decide, by decide⟩

theorem eth0Only_addresses_plain : ∀ iface ip, getIPFromIface eth0Only iface 0 = .ret ip none →
    HasPrefix ip hostLabelKeyword = false ∧ HasPrefix ip hostInterfaceKeyword = false := by
  intro iface ip h
  by_cases hi : iface = "eth0"
  · subst hi
    have hr : getIPFromIface eth0Only "eth0" 0 = .ret "192.168.1.10" none := rfl
    rw [hr] at h
    injection h with h3 _
    subst h3
    exact ⟨by decide, by decide⟩
  · simp [getIPFromIface, eth0Only, hi] at h

/-- C10, amended, at a fragment with an interface placeholder that resolves, a label
placeholder and a nested sequence. -/
theorem C10_idempotent_on_resolved_values_witness :
    (∀ e ∈ hostFoo.Labels,
      HasPrefix e.2 hostLabelKeyword = false ∧ HasPrefix e.2 hostInterfaceKeyword = false)
    ∧ (∀ iface ip, getIPFromIface eth0Only iface 0 = .ret ip none →
      HasPrefix ip hostLabelKeyword = false ∧ HasPrefix ip hostInterfaceKeyword = false)
    ∧ noBreak eth0Only hostFoo fragPlaceholders = true
    ∧ UpdateCNIConfigByKeywords eth0Only hostFoo
        (UpdateCNIConfigByKeywords eth0Only hostFoo fragPlaceholders)
      = UpdateCNIConfigByKeywords eth0Only hostFoo fragPlaceholders :=
  ⟨hostFoo_labels_plain, eth0Only_addresses_plain, by decide,
    C10_idempotent_on_resolved_values eth0Only hostFoo fragPlaceholders
      hostFoo_labels_plain eth0Only_addresses_plain (by decide)⟩

/-! ## Placeholder-free input -/

theorem substString_of_plainString (ns : NetStack) (host : Host) (v : String)
    (h : plainString v = true) : substString ns host v = (v, false) := by
  simp only [plainString, Bool.and_eq_true, Bool.not_eq_true'] at h
  exact substString_plain ns host v h.1 h.2

mutual
theorem update_of_placeholderFree (ns : NetStack) (host : Host) :
    ∀ c : Config, placeholderFree c = true → UpdateCNIConfigByKeywords ns host c = c
  | .null, _ => rfl
  | .bool _, _ => rfl
  | .num _, _ => rfl
  | .str _, _ => rfl
  | .seq xs, h => by
    simp only [placeholderFree] at h
    simp only [UpdateCNIConfigByKeywords, updateSeq_of_placeholderFree ns host xs h]
  | .map kvs, h => by
    simp only [placeholderFree] at h
    simp only [UpdateCNIConfigByKeywords, updateMap_of_placeholderFree ns host kvs h]
theorem updateSeq_of_placeholderFree (ns : NetStack) (host : Host) :
    ∀ xs : List Config, placeholderFreeSeq xs = true → updateSeq ns host xs = xs
  | [], _ => rfl
  | c :: rest, h => by
    simp only [placeholderFreeSeq, Bool.and_eq_true] at h
    simp only [updateSeq, update_of_placeholderFree ns host c h.1,
      updateSeq_of_placeholderFree ns host rest h.2]
theorem updateMap_of_placeholderFree (ns : NetStack) (host : Host) :
    ∀ kvs : List (String × Config), placeholderFreeMap kvs = true → updateMap ns host kvs = kvs
  | [], _ => rfl
  | (k, .str v) :: rest, h => by
    simp only [placeholderFreeMap, Bool.and_eq_true, placeholderFree] at h
    simp only [updateMap, substString_of_plainString ns host v h.1, Bool.false_eq_true,
      if_false, updateMap_of_placeholderFree ns host rest h.2]
  | (k, .null) :: rest, h => by
    simp only [placeholderFreeMap, Bool.and_eq_true] at h
    simp only [updateMap, UpdateCNIConfigByKeywords,
      updateMap_of_placeholderFree ns host rest h.2]
  | (k, .bool _) :: rest, h => by
    simp only [placeholderFreeMap, Bool.and_eq_true] at h
    simp only [updateMap, UpdateCNIConfigByKeywords,
      updateMap_of_placeholderFree ns host rest h.2]
  | (k, .num _) :: rest, h => by
    simp only [placeholderFreeMap, Bool.and_eq_true] at h
    simp only [updateMap, UpdateCNIConfigByKeywords,
      updateMap_of_placeholderFree ns host rest h.2]
  | (k, .seq xs) :: rest, h => by
    simp only [placeholderFreeMap, Bool.and_eq_true, placeholderFree] at h
    simp only [updateMap, UpdateCNIConfigByKeywords,
      updateSeq_of_placeholderFree ns host xs h.1,
      updateMap_of_placeholderFree ns host rest h.2]
  | (k, .map kvs) :: rest, h => by
    simp only [placeholderFreeMap, Bool.and_eq_true, placeholderFree] at h
    simp only [updateMap, UpdateCNIConfigByKeywords,
      updateMap_of_placeholderFree ns host kvs h.1,
      updateMap_of_placeholderFree ns host rest h.2]
end

/-- C11: for every configuration value in which no string begins with `__host_label__` or
`__host_interface__`, every host and every behaviour of the interface lookup,
`UpdateCNIConfigByKeywords` returns a value equal to its input. -/
theorem C11_identity_on_placeholder_free (ns : NetStack) (host : Host) (c : Config)
    (h : placeholderFree c = true) : UpdateCNIConfigByKeywords ns host c = c :=
  update_of_placeholderFree ns host c h

/-- C11 at a fragment with strings, numbers, booleans and a nested sequence. -/
theorem C11_identity_on_placeholder_free_witness :
    placeholderFree fragPlain = true
    ∧ UpdateCNIConfigByKeywords noLinks hostFoo fragPlain = fragPlain :=
  ⟨by decide, C11_identity_on_placeholder_free noLinks hostFoo fragPlain (by decide)⟩

/-! ## The convenience variant -/

/-- C12: `GetLocalNetworksAndRoutersFromMetadata` returns an error exactly when one of the
three retrievals is an error; the error is that of the first failing retrieval in the order
networks, self host, services, and the networks and the router map returned with it are nil;
when all three succeed it returns no error and the pair of `GetLocalNetworksAndRouters`. -/
theorem C12_first_failure_short_circuits (mc : Client) :
    ((GetLocalNetworksAndRoutersFromMetadata mc).err ≠ none ↔
        ((∃ e, mc.GetNetworks = .error e) ∨ (∃ e, mc.GetSelfHost = .error e)
          ∨ (∃ e, mc.GetServices = .error e)))
    ∧ (∀ e, mc.GetNetworks = .error e →
        GetLocalNetworksAndRoutersFromMetadata mc = ⟨none, none, some e⟩)
    ∧ (∀ networks e, mc.GetNetworks = .ok networks → mc.GetSelfHost = .error e →
        GetLocalNetworksAndRoutersFromMetadata mc = ⟨none, none, some e⟩)
    ∧ (∀ networks host e, mc.GetNetworks = .ok networks → mc.GetSelfHost = .ok host →
        mc.GetServices = .error e →
        GetLocalNetworksAndRoutersFromMetadata mc = ⟨none, none, some e⟩)
    ∧ (∀ networks host services, mc.GetNetworks = .ok networks → mc.GetSelfHost = .ok host →
        mc.GetServices = .ok services →
        GetLocalNetworksAndRoutersFromMetadata mc =
          ⟨some (GetLocalNetworksAndRouters networks host services).1,
           some (GetLocalNetworksAndRouters networks host services).2, none⟩) := by
  obtain ⟨gn, gh, gs⟩ := mc
  cases gn with
  | error e1 => simp [GetLocalNetworksAndRoutersFromMetadata]
  | ok ns =>
    cases gh with
    | error e2 => simp [GetLocalNetworksAndRoutersFromMetadata]
    | ok h =>
      cases gs with
      | error e3 => simp [GetLocalNetworksAndRoutersFromMetadata]
      | ok ss => simp [GetLocalNetworksAndRoutersFromMetadata]

/-- C12 at a source whose host retrieval and service retrieval both fail: the error of the
host retrieval is returned. -/
theorem C12_first_failure_short_circuits_witness :
    clientNoHost.GetNetworks = .ok [] ∧ clientNoHost.GetSelfHost = .error "host unavailable"
    ∧ GetLocalNetworksAndRoutersFromMetadata clientNoHost
        = ⟨none, none, some "host unavailable"⟩ :=
  ⟨rfl, rfl, (C12_first_failure_short_circuits clientNoHost).2.2.1 [] "host unavailable" rfl rfl⟩

/-! ## The shape of the result -/

mutual
theorem sameShape_self : ∀ c : Config, sameShape c c = true
  | .null => rfl
  | .bool _ => by simp [sameShape]
  | .num _ => by simp [sameShape]
  | .str _ => rfl
  | .seq xs => by simp only [sameShape, sameShapeSeq_self xs]
  | .map kvs => by simp only [sameShape, sameShapeMap_self kvs]
theorem sameShapeSeq_self : ∀ xs : List Config, sameShapeSeq xs xs = true
  | [] => rfl
  | c :: rest => by
    simp only [sameShapeSeq, sameShape_self c, sameShapeSeq_self rest, Bool.and_self]
theorem sameShapeMap_self : ∀ kvs : List (String × Config), sameShapeMap kvs kvs = true
  | [] => rfl
  | (k, c) :: rest => by
    simp only [sameShapeMap, sameShape_self c, sameShapeMap_self rest, beq_self_eq_true,
      Bool.and_self]
end

mutual
theorem update_sameShape (ns : NetStack) (host : Host) :
    ∀ c : Config, sameShape c (UpdateCNIConfigByKeywords ns host c) = true
  | .null => rfl
  | .bool _ => by simp [sameShape, UpdateCNIConfigByKeywords]
  | .num _ => by simp [sameShape, UpdateCNIConfigByKeywords]
  | .str _ => rfl
  | .seq xs => by
    simp only [UpdateCNIConfigByKeywords, sameShape, updateSeq_sameShape ns host xs]
  | .map kvs => by
    simp only [UpdateCNIConfigByKeywords, sameShape, updateMap_sameShape ns host kvs]
theorem updateSeq_sameShape (ns : NetStack) (host : Host) :
    ∀ xs : List Config, sameShapeSeq xs (updateSeq ns host xs) = true
  | [] => rfl
  | c :: rest => by
    simp only [updateSeq, sameShapeSeq, update_sameShape ns host c,
      updateSeq_sameShape ns host rest, Bool.and_self]
theorem updateMap_sameShape (ns : NetStack) (host : Host) :
    ∀ kvs : List (String × Config), sameShapeMap kvs (updateMap ns host kvs) = true
  | [] => rfl
  | (k, .str v) :: rest => by
    by_cases hb : (substString ns host v).2 = true
    · simp only [updateMap, hb, if_true, sameShapeMap, sameShape, sameShapeMap_self rest,
        beq_self_eq_true, Bool.and_self]
    · simp only [updateMap, hb, if_false, sameShapeMap, sameShape,
        updateMap_sameShape ns host rest, beq_self_eq_true, Bool.and_self]
  | (k, .null) :: rest => by
    simp only [updateMap, UpdateCNIConfigByKeywords, sameShapeMap, sameShape,
      updateMap_sameShape ns host rest, beq_self_eq_true, Bool.and_self]
  | (k, .bool _) :: rest => by
    simp only [updateMap, UpdateCNIConfigByKeywords, sameShapeMap, sameShape,
      updateMap_sameShape ns host rest, beq_self_eq_true, Bool.and_self]
  | (k, .num _) :: rest => by
    simp only [updateMap, UpdateCNIConfigByKeywords, sameShapeMap, sameShape,
      updateMap_sameShape ns host rest, beq_self_eq_true, Bool.and_self]
  | (k, .seq xs) :: rest => by
    simp only [updateMap, UpdateCNIConfigByKeywords, sameShapeMap, sameShape,
      updateSeq_sameShape ns host xs, updateMap_sameShape ns host rest, beq_self_eq_true,
      Bool.and_self]
  | (k, .map kvs) :: rest => by
    simp only [updateMap, UpdateCNIConfigByKeywords, sameShapeMap, sameShape,
      updateMap_sameShape ns host kvs, updateMap_sameShape ns host rest, beq_self_eq_true,
      Bool.and_self]
end

theorem updateSeq_length (ns : NetStack) (host : Host) (xs : List Config) :
    (updateSeq ns host xs).length = xs.length := by
  induction xs with
  | nil => rfl
  | cons c rest ih => simp [updateSeq, ih]

theorem updateMap_keys (ns : NetStack) (host : Host) (kvs : List (String × Config)) :
    (updateMap ns host kvs).map Prod.fst = kvs.map Prod.fst := by
  induction kvs with
  | nil => rfl
  | cons e rest ih =>
    obtain ⟨k, c⟩ := e
    cases c with
    | str v =>
      by_cases hb : (substString ns host v).2 = true
      · simp [updateMap, hb]
      · simp [updateMap, hb, ih]
    | null => simp [updateMap, ih]
    | bool b => simp [updateMap, ih]
    | num n => simp [updateMap, ih]
    | seq xs => simp [updateMap, ih]
    | map m => simp [updateMap, ih]

/-- C15: for every configuration value, host and behaviour of the interface lookup, the
output of `UpdateCNIConfigByKeywords` has the same kind as the input at every node, with
equal non-string scalars and strings in the place of strings; a sequence keeps its length
and a mapping keeps its keys, each at its place. -/
theorem C15_structure_preserved (ns : NetStack) (host : Host) (c : Config)
    (xs : List Config) (kvs : List (String × Config)) :
    sameShape c (UpdateCNIConfigByKeywords ns host c) = true
    ∧ UpdateCNIConfigByKeywords ns host (.seq xs) = .seq (updateSeq ns host xs)
    ∧ (updateSeq ns host xs).length = xs.length
    ∧ UpdateCNIConfigByKeywords ns host (.map kvs) = .map (updateMap ns host kvs)
    ∧ (updateMap ns host kvs).map Prod.fst = kvs.map Prod.fst :=
  ⟨update_sameShape ns host c, rfl, updateSeq_length ns host xs, rfl,
    updateMap_keys ns host kvs⟩

/-! ## The interface lookup -/

theorem pieces_headD (sep : Char) (cs : List Char) :
    (pieces sep cs).headD [] = cs.takeWhile fun c => c != sep := by
  induction cs with
  | nil => rfl
  | cons c rest ih =>
    by_cases hc : c = sep
    · simp [pieces, hc]
    · have hne : (c != sep) = true := by simpa using hc
      simp only [pieces, hc, if_false, List.takeWhile_cons, hne, if_true]
      cases hp : pieces sep rest with
      | nil => rw [hp] at ih; simp only [List.headD_nil] at ih; simp [← ih]
      | cons p ps => rw [hp] at ih; simp only [List.headD_cons] at ih; simp [← ih]

/-- The first piece of `strings.Split(s, "/")` is the text before the first `/`. -/
theorem Split_headD (s : String) : (Split s '/').headD "" = beforeSlash s := by
  have h := pieces_headD '/' s.data
  unfold Split beforeSlash
  cases hp : pieces '/' s.data with
  | nil => rw [hp] at h; simp only [List.headD_nil] at h; simp [← h]
  | cons p ps => rw [hp] at h; simp only [List.headD_cons] at h; simp [← h]

/-- An index at or beyond the length of the address list gives the `no address` error. -/
theorem getIPFromIface_index_ge (ns : NetStack) (iface : String) (index : Int) (l : Nat)
    (addrs : List String) (h1 : ns.LinkByName iface = .ok l) (h2 : ns.AddrList l = .ok addrs)
    (h : (addrs.length : Int) ≤ index) :
    getIPFromIface ns iface index = .ret "" (some ("Get no ip address from " ++ iface)) := by
  have hlt : ¬ (addrs.length : Int) > index := by omega
  simp only [getIPFromIface, h1, h2, hlt, if_false, if_true]

/-- A negative index makes `addrs[index]` panic, whatever the address list. -/
theorem getIPFromIface_index_neg (ns : NetStack) (iface : String) (index : Int) (l : Nat)
    (addrs : List String) (h1 : ns.LinkByName iface = .ok l) (h2 : ns.AddrList l = .ok addrs)
    (h : index < 0) : getIPFromIface ns iface index = .panicked := by
  have hlt : (addrs.length : Int) > index := by omega
  have hneg : ¬ (0 ≤ index) := by omega
  simp only [getIPFromIface, h1, h2, hlt, hneg, if_false, if_true]

/-- An index within the address list gives the text before the first `/` of that address,
or the `no address` error when that text is empty. -/
theorem getIPFromIface_index_lt (ns : NetStack) (iface : String) (l : Nat)
    (addrs : List String) (i : Nat) (hi : i < addrs.length)
    (h1 : ns.LinkByName iface = .ok l) (h2 : ns.AddrList l = .ok addrs) :
    getIPFromIface ns iface i =
      if beforeSlash addrs[i] = "" then
        .ret "" (some ("Get no ip address from " ++ iface))
      else .ret (beforeSlash addrs[i]) none := by
  have hlt : (addrs.length : Int) > (i : Int) := by omega
  have hnn : (0 : Int) ≤ (i : Int) := by omega
  have hget : addrs.getD (i : Int).toNat "" = addrs[i] := by
    simp [List.getD, hi]
  simp only [getIPFromIface, h1, h2, hlt, hnn, if_true, hget, Split_headD]
  by_cases he : beforeSlash addrs[i] = ""
  · simp only [he, if_true]
  · simp only [he, if_false]

/-- C16: with the link lookup and the address enumeration both successful and an index
within the address list, `getIPFromIface` returns without error the text of the address at
that index before the first `/`, provided that text is non-empty; it returns an error when
the link lookup fails and when the address enumeration fails; whenever it returns an error
the returned string is empty. -/
theorem C16_lookup_contract (ns : NetStack) (iface : String) :
    (∀ (l : Nat) (addrs : List String) (i : Nat) (hi : i < addrs.length),
        ns.LinkByName iface = .ok l → ns.AddrList l = .ok addrs →
        beforeSlash addrs[i] ≠ "" →
        getIPFromIface ns iface i = .ret (beforeSlash addrs[i]) none)
    ∧ (∀ (index : Int) (e : String), ns.LinkByName iface = .error e →
        getIPFromIface ns iface index = .ret "" (some ("Failed to get bridge link: " ++ e)))
    ∧ (∀ (index : Int) (l : Nat) (e : String), ns.LinkByName iface = .ok l →
        ns.AddrList l = .error e →
        getIPFromIface ns iface index
          = .ret "" (some ("Failed to get bridge address: " ++ e)))
    ∧ (∀ (index : Int) (s msg : String),
        getIPFromIface ns iface index = .ret s (some msg) → s = "") := by
  refine ⟨?_, ?_, ?_, ?_⟩
  · intro l addrs i hi h1 h2 hne
    rw [getIPFromIface_index_lt ns iface l addrs i hi h1 h2, if_neg hne]
  · intro index e h1
    simp only [getIPFromIface, h1]
  · intro index l e h1 h2
    simp only [getIPFromIface, h1, h2]
  · intro index s msg h
    unfold getIPFromIface at h
    cases h1 : ns.LinkByName iface with
    | error e =>
      simp only [h1, Outcome.ret.injEq] at h
      exact h.1.symm
    | ok l =>
      cases h2 : ns.AddrList l with
      | error e =>
        simp only [h1, h2, Outcome.ret.injEq] at h
        exact h.1.symm
      | ok addrs =>
        simp only [h1, h2] at h
        split at h
        · cases h
        · rename_i ip _
          by_cases he : ip = ""
          · simp only [he, if_true, Outcome.ret.injEq] at h
            exact h.1.symm
          · simp only [he, if_false, Outcome.ret.injEq] at h
            cases h.2

/-- C16 at the link `eth0` with the address `192.168.1.10/24`. -/
theorem C16_lookup_contract_witness :
    eth0Only.LinkByName "eth0" = .ok 1 ∧ eth0Only.AddrList 1 = .ok ["192.168.1.10/24"]
    ∧ beforeSlash "192.168.1.10/24" ≠ ""
    ∧ getIPFromIface eth0Only "eth0" (0 : Nat) = .ret (beforeSlash "192.168.1.10/24") none :=
  ⟨rfl, rfl, by decide,
    (C16_lookup_contract eth0Only "eth0").1 1 ["192.168.1.10/24"] 0 (by decide) rfl rfl
      (by decide)⟩

/-- An index that is not negative never makes `addrs[index]` panic. -/
theorem getIPFromIface_nonneg (ns : NetStack) (iface : String) (index : Int)
    (h : 0 ≤ index) : getIPFromIface ns iface index ≠ .panicked := by
  unfold getIPFromIface
  cases h1 : ns.LinkByName iface with
  | error e => simp
  | ok l =>
    cases h2 : ns.AddrList l with
    | error e => simp [h2]
    | ok addrs =>
      by_cases hlt : (addrs.length : Int) > index
      · simp only [h2, hlt, h, if_true]
        split <;> simp
      · simp only [h2, hlt, if_false]
        split <;> simp

/-- C17, as stated, fails: for the link `eth0` with its one address and the index `-1` the
guard `len(addrs) > index` holds and `addrs[-1]` is evaluated, an index out of bounds; the
call panics and returns no pair of an empty string and an error. -/
theorem C17_negative_index_panics :
    eth0Only.LinkByName "eth0" = .ok 1 ∧ eth0Only.AddrList 1 = .ok ["192.168.1.10/24"]
    ∧ getIPFromIface eth0Only "eth0" (-1) = .panicked
    ∧ ∀ msg, getIPFromIface eth0Only "eth0" (-1) ≠ .ret "" (some msg) := by
  have h : getIPFromIface eth0Only "eth0" (-1) = .panicked := rfl
  refine ⟨rfl, rfl, h, ?_⟩
  intro msg
  rw [h]
  exact fun hc => Outcome.noConfusion hc

/-- C17, amended: with the link lookup and the address enumeration both successful, for every
index at or beyond the length of the address list `getIPFromIface` returns the empty string
with the `no address` error; and for every index that is not negative, the index `0` of its
only call among them, it never indexes the address list out of bounds. -/
theorem C17_index_beyond_the_list (ns : NetStack) (iface : String) (index : Int) (l : Nat)
    (addrs : List String) (h1 : ns.LinkByName iface = .ok l) (h2 : ns.AddrList l = .ok addrs)
    (h : (addrs.length : Int) ≤ index) :
    getIPFromIface ns iface index = .ret "" (some ("Get no ip address from " ++ iface))
    ∧ ∀ index2 : Int, 0 ≤ index2 → getIPFromIface ns iface index2 ≠ .panicked :=
  ⟨getIPFromIface_index_ge ns iface index l addrs h1 h2 h,
    fun index2 h0 => getIPFromIface_nonneg ns iface index2 h0⟩

/-- C17, amended, at the link `eth0` with its one address and the index `1`. -/
theorem C17_index_beyond_the_list_witness :
    eth0Only.LinkByName "eth0" = .ok 1 ∧ eth0Only.AddrList 1 = .ok ["192.168.1.10/24"]
    ∧ ((["192.168.1.10/24"] : List String).length : Int) ≤ 1
    ∧ getIPFromIface eth0Only "eth0" 1 = .ret "" (some ("Get no ip address from " ++ "eth0")) :=
  ⟨rfl, rfl, by decide,
    (C17_index_beyond_the_list eth0Only "eth0" 1 1 ["192.168.1.10/24"] rfl rfl (by decide)).1⟩

/-! ## Malformed placeholders, interface placeholders and recognition by prefix -/

theorem keywords_exclusive_iface (v : String) (h : HasPrefix v hostInterfaceKeyword = true) :
    HasPrefix v hostLabelKeyword = false := by
  cases hl : HasPrefix v hostLabelKeyword with
  | false => rfl
  | true => rw [keywords_exclusive v hl] at h; exact absurd h (by decide)

/-- A label placeholder without a colon is cleared, and the host labels are not read. -/
theorem substString_label_nocolon (ns : NetStack) (host : Host) (v : String)
    (hp : HasPrefix v hostLabelKeyword = true) (hc : cutFirst ':' v.data = none) :
    substString ns host v = ("", false) := by
  have hi := keywords_exclusive v hp
  simp [substString, hp, hi, SplitN2, hc]

/-- An interface placeholder without a colon is cleared, and no lookup is made. -/
theorem substString_iface_nocolon (ns : NetStack) (host : Host) (v : String)
    (hp : HasPrefix v hostInterfaceKeyword = true) (hc : cutFirst ':' v.data = none) :
    substString ns host v = ("", false) := by
  have hl := keywords_exclusive_iface v hp
  simp [substString, hp, hl, SplitN2, hc]

/-- An interface placeholder with a colon is replaced by the address looked up for the
trimmed text after the first colon; a failed lookup clears it and leaves the loop. -/
theorem substString_iface (ns : NetStack) (host : Host) (v : String) (a b : List Char)
    (hp : HasPrefix v hostInterfaceKeyword = true) (hc : cutFirst ':' v.data = some (a, b)) :
    substString ns host v =
      match getIPFromIface ns (TrimSpace ⟨b⟩) 0 with
      | .ret ipstr none => (ipstr, false)
      | _ => ("", true) := by
  have hl := keywords_exclusive_iface v hp
  simp only [substString, hp, hl, SplitN2, hc, if_true]
  simp only [List.length_cons, List.length_nil, Nat.reduceAdd, gt_iff_lt, Nat.one_lt_ofNat,
    if_true, List.getD_cons_succ, List.getD_cons_zero]
  cases getIPFromIface ns (TrimSpace ⟨b⟩) 0 with
  | panicked => rfl
  | ret ip err => cases err <;> rfl

/-- A malformed placeholder that the loop over a mapping reaches is cleared. -/
theorem updateMap_malformed_entry (ns : NetStack) (host : Host)
    (pre post : List (String × Config)) (k v : String)
    (hp : HasPrefix v hostLabelKeyword = true ∨ HasPrefix v hostInterfaceKeyword = true)
    (hc : cutFirst ':' v.data = none) (hb : mapBreaks ns host pre = false) :
    updateMap ns host (pre ++ (k, .str v) :: post)
      = updateMap ns host pre ++ (k, .str "") :: updateMap ns host post := by
  have hs : substString ns host v = ("", false) := by
    rcases hp with hp | hp
    · exact substString_label_nocolon ns host v hp hc
    · exact substString_iface_nocolon ns host v hp hc
  simp [updateMap_append ns host pre _ hb, updateMap, hs]

/-- An interface placeholder that the loop over a mapping reaches and whose lookup succeeds
is replaced by the address found. -/
theorem updateMap_iface_entry (ns : NetStack) (host : Host)
    (pre post : List (String × Config)) (k v ip : String) (a b : List Char)
    (hp : HasPrefix v hostInterfaceKeyword = true) (hc : cutFirst ':' v.data = some (a, b))
    (hg : getIPFromIface ns (TrimSpace ⟨b⟩) 0 = .ret ip none)
    (hb : mapBreaks ns host pre = false) :
    updateMap ns host (pre ++ (k, .str v) :: post)
      = updateMap ns host pre ++ (k, .str ip) :: updateMap ns host post := by
  have hs : substString ns host v = (ip, false) := by
    rw [substString_iface ns host v a b hp hc, hg]
  simp [updateMap_append ns host pre _ hb, updateMap, hs]

/-- C13 at the failing input: the mapping `addr: __host_interface__:eth9, ip: __host_label__`
visited in this order, on a host without the link `eth9`.  The value at `ip` starts with the
label keyword and has no colon, and yet it is still `__host_label__` after the call; visited
first, it is cleared. -/
theorem C13_malformed_entry_after_failed_lookup :
    HasPrefix "__host_label__" hostLabelKeyword = true
    ∧ SplitN2 "__host_label__" ':' = ["__host_label__"]
    ∧ UpdateCNIConfigByKeywords noLinks hostFoo
        (.map [("addr", .str "__host_interface__:eth9"), ("ip", .str "__host_label__")])
      = .map [("addr", .str ""), ("ip", .str "__host_label__")]
    ∧ fieldStr (UpdateCNIConfigByKeywords noLinks hostFoo
        (.map [("addr", .str "__host_interface__:eth9"), ("ip", .str "__host_label__")])) "ip"
      ≠ ""
    ∧ UpdateCNIConfigByKeywords noLinks hostFoo
        (.map [("ip", .str "__host_label__"), ("addr", .str "__host_interface__:eth9")])
      = .map [("ip", .str ""), ("addr", .str "")] :=
  ⟨by decide, by decide, rfl, by decide, rfl⟩

/-- C14 at the failing input: the mapping `peer: __host_interface__:eth9,
addr: __host_interface__:eth0` visited in this order, on a host whose only link is `eth0`
with the address `192.168.1.10/24`.  The lookup for `eth0` succeeds with `192.168.1.10`, and
yet the value at `addr` is still the placeholder after the call; visited first, it is
replaced. -/
theorem C14_interface_entry_after_failed_lookup :
    getIPFromIface eth0Only (TrimSpace "eth0") 0 = .ret "192.168.1.10" none
    ∧ UpdateCNIConfigByKeywords eth0Only hostFoo
        (.map [("peer", .str "__host_interface__:eth9"),
               ("addr", .str "__host_interface__:eth0")])
      = .map [("peer", .str ""), ("addr", .str "__host_interface__:eth0")]
    ∧ fieldStr (UpdateCNIConfigByKeywords eth0Only hostFoo
        (.map [("peer", .str "__host_interface__:eth9"),
               ("addr", .str "__host_interface__:eth0")])) "addr"
      ≠ "192.168.1.10"
    ∧ UpdateCNIConfigByKeywords eth0Only hostFoo
        (.map [("addr", .str "__host_interface__:eth0"),
               ("peer", .str "__host_interface__:eth9")])
      = .map [("addr", .str "192.168.1.10"), ("peer", .str "")] :=
  ⟨rfl, rfl, by decide, rfl⟩

/-- Two label placeholders with the same text after their first colon are treated alike by
the loop body, whatever stands between the keyword and that colon. -/
theorem substString_label_same_name (ns : NetStack) (host : Host) (v w : String)
    (a a2 b : List Char)
    (hv : HasPrefix v hostLabelKeyword = true) (hw : HasPrefix w hostLabelKeyword = true)
    (hcv : cutFirst ':' v.data = some (a, b)) (hcw : cutFirst ':' w.data = some (a2, b)) :
    substString ns host v = substString ns host w := by
  rw [substString_label ns host v a b hv hcv, substString_label ns host w a2 b hw hcw]

/-- C18 at the failing input: the mapping `addr: __host_interface__:eth9,
ip: __host_label__XYZ:foo` visited in this order, on a host with `foo=10.0.0.5` and no link
`eth9`.  The value at `ip` begins with the label keyword, and yet the field is not
overwritten.  Where the loop reaches it, `__host_label__XYZ:foo` is resolved like
`__host_label__:foo`. -/
theorem C18_prefixed_entry_after_failed_lookup :
    HasPrefix "__host_label__XYZ:foo" hostLabelKeyword = true
    ∧ HasPrefix "__host_label__XYZ:foo" hostInterfaceKeyword = false
    ∧ UpdateCNIConfigByKeywords noLinks hostFoo
        (.map [("addr", .str "__host_interface__:eth9"), ("ip", .str "__host_label__XYZ:foo")])
      = .map [("addr", .str ""), ("ip", .str "__host_label__XYZ:foo")]
    ∧ UpdateCNIConfigByKeywords noLinks hostFoo (.map [("ip", .str "__host_label__XYZ:foo")])
      = .map [("ip", .str "10.0.0.5")]
    ∧ UpdateCNIConfigByKeywords noLinks hostFoo (.map [("ip", .str "__host_label__:foo")])
      = .map [("ip", .str "10.0.0.5")] :=
  ⟨by decide, by decide, rfl, rfl, rfl⟩

end Utils
